import Mathlib

/-!
Shallow embedding of `src/vtk2raw.cxx` (vtk2raw: converts the point-data
arrays of a VTK file to a raw text or binary file), together with proofs
about its array-marshalling engine.

The embedding models:
  * the data model: an ordered set of data arrays, each with a component
    count, a tuple count and a component accessor (`NamedArray`);
  * `WriteArraysToASCIIFile` (lines 533-588): the text serializer;
  * `WriteArraysToBinaryFile` (lines 612-648): the binary serializer,
    modelled as the sequence of double values written (the byte-level
    encoding of each value is abstracted as an 8-byte block);
  * the validation logic of `WriteArraysToOutputFile` (lines 392-491);
  * the null-array check of `WriteArraysToOutputFile` (lines 422-427);
  * `DetermineInputFileType` (lines 200-245), including the truthiness
    use of `strcmp` for the `VTP`/`VTU` branches;
  * the argument handling of `main` (lines 101-133), including `atoi`.

Output streams are modelled as `List Char` (text) and `List α` (binary
values); numeric formatting of a double by `operator<<` is abstracted as
a formatter `fmt : α → List Char`.
-/

namespace Vtk2Raw

/-- One point-data array as the engine sees it: `GetNumberOfComponents`,
`GetNumberOfTuples`, and `GetComponent(tuple, component)`.  The component
accessor is total, as `vtkDataArray::GetComponent` is for in-range indices;
the serializers only ever call it with in-range indices. -/
structure NamedArray (α : Type) where
  name : String
  componentCount : Nat
  tupleCount : Nat
  data : Nat → Nat → α

instance [Inhabited α] : Inhabited (NamedArray α) :=
  ⟨⟨"", 0, 0, fun _ _ => default⟩⟩

/-- The delimiter of the text serializer: `std::string Delimiter("\t")`
(line 541 of `vtk2raw.cxx`). -/
def delimiter : List Char := ['\t']

/-- The row separator written by `OutputFile << std::endl` (line 585). -/
def newlineString : List Char := ['\n']

/-- The common shape of the three serializer loops: iterate `i` from `0` to
`k-1`, emit `f i`, and after it emit the delimiter `d` exactly when
`i < k - 1` (the source tests `Iterator < Count-1` on unsigned values; the
test is only reached when `i < k`, where C unsigned `k-1` and Nat `k-1`
agree for `k ≥ 1`, and for `k = 0` the loop body never runs). -/
def loopJoin (k : Nat) (f : Nat → List Char) (d : List Char) : List Char :=
  ((List.range k).map (fun i => f i ++ if i < k - 1 then d else [])).flatten

/-- The innermost loop of `WriteArraysToASCIIFile` (lines 558-573): write
every component of array `a` at tuple `t`, separated by the delimiter. -/
def writeComponentsOfArray (fmt : α → List Char) (a : NamedArray α)
    (t : Nat) : List Char :=
  loopJoin a.componentCount (fun c => fmt (a.data t c)) delimiter

/-- The array loop of `WriteArraysToASCIIFile` (lines 553-580): write every
array's components at tuple `t`, with the delimiter between arrays. -/
def writeRowToASCII [Inhabited α] (fmt : α → List Char)
    (arrays : List (NamedArray α)) (t : Nat) : List Char :=
  loopJoin arrays.length
    (fun i => writeComponentsOfArray fmt (arrays.getD i default) t) delimiter

/-- `WriteArraysToASCIIFile` (lines 533-588): iterate over the tuples of
`InputDataArrays[0]`, writing one row per tuple and `std::endl` between
rows (not after the last one).  The emitted characters are returned. -/
def writeArraysToASCIIFile [Inhabited α] (fmt : α → List Char)
    (arrays : List (NamedArray α)) : List Char :=
  loopJoin (arrays.headD default).tupleCount
    (fun t => writeRowToASCII fmt arrays t) newlineString

/-- `WriteArraysToBinaryFile` (lines 612-648): the same triple loop with no
delimiters; each iteration writes one double with `OutputFile.write`.  The
result is the sequence of double values written, in order. -/
def writeArraysToBinaryFile [Inhabited α]
    (arrays : List (NamedArray α)) : List α :=
  (List.range (arrays.headD default).tupleCount).flatMap (fun t =>
    (List.range arrays.length).flatMap (fun i =>
      (List.range (arrays.getD i default).componentCount).map (fun c =>
        (arrays.getD i default).data t c)))

/-- The validation failures of `WriteArraysToOutputFile`: "DataSet has no
array." (line 403) and "Inconsistent file: number of tuples in arrays are
not the same." (lines 440-443).  `nullArray` is the error the spec asks a
reimplementation to raise for a NULL array slot; the reference never
produces it (see `nullArrayCheck`). -/
inductive ConvError where
  | emptyInput
  | nullArray (index : Nat)
  | inconsistentTupleCount
deriving DecidableEq, Repr

/-- The content written to the output file, for either mode. -/
inductive RawOutput (α : Type) where
  | text (chars : List Char)
  | binary (values : List α)
deriving DecidableEq, Repr

/-- `WriteArraysToOutputFile` (lines 392-491): count the arrays and fail on
zero (lines 398-405, `exit(1)`); walk the arrays comparing every tuple
count with `NumberOfTuplesInEachArray[0]` and fail on a mismatch
(lines 434-445, `exit(1)`); only then open the output file and dispatch on
`BinaryOutputFile` (lines 459-481).  Both failures happen before the file
is opened, hence before any output byte; an `Except.error` result carries
no output.  Console diagnostics and `OpenFile` errors are not modelled. -/
def writeArraysToOutputFile [Inhabited α] (fmt : α → List Char)
    (arrays : List (NamedArray α)) (binaryOutputFile : Bool) :
    Except ConvError (RawOutput α) :=
  if arrays.length < 1 then
    .error .emptyInput
  else if arrays.tail.any
      (fun a => a.tupleCount ≠ (arrays.headD default).tupleCount) then
    .error .inconsistentTupleCount
  else if binaryOutputFile = false then
    .ok (.text (writeArraysToASCIIFile fmt arrays))
  else
    .ok (.binary (writeArraysToBinaryFile arrays))

/-- Spec-side view: the text serializer's fields of row `t`, in field
order — array order, then component order within each array. -/
def tupleFields (fmt : α → List Char) (arrays : List (NamedArray α))
    (t : Nat) : List (List Char) :=
  arrays.flatMap (fun a =>
    (List.range a.componentCount).map (fun c => fmt (a.data t c)))

/-- Spec-side view: the raw values of row `t` in the same field order. -/
def tupleValues (arrays : List (NamedArray α)) (t : Nat) : List α :=
  arrays.flatMap (fun a =>
    (List.range a.componentCount).map (fun c => a.data t c))

/-- Spec-side characterization of a delimited line/file: the pieces joined
with a single copy of `d` between adjacent pieces, none at either end. -/
def sepBy {γ : Type} (d : List γ) : List (List γ) → List γ
  | [] => []
  | [x] => x
  | x :: y :: xs => x ++ d ++ sepBy d (y :: xs)

/-- Formatter used for concrete test vectors: the values in the spec's
concrete scenario are integral doubles, which `operator<<` at
`setprecision(16)` prints with no decimal point, exactly as the decimal
integer string. -/
def intFmt (v : Int) : List Char := (toString v).toList

/-- Array A of the spec's concrete scenario: 2 components, 2 tuples,
values [[1,2],[3,4]]. -/
def arrA : NamedArray Int :=
  ⟨"A", 2, 2, fun t c => (([[1, 2], [3, 4]].getD t []).getD c 0)⟩

/-- Array B of the spec's concrete scenario: 1 component, 2 tuples,
values [[5],[6]]. -/
def arrB : NamedArray Int :=
  ⟨"B", 1, 2, fun t c => (([[5], [6]].getD t []).getD c 0)⟩

/-- A 1-component, 5-tuple array, for validation test vectors. -/
def arrFive : NamedArray Int := ⟨"C", 1, 5, fun _ _ => 0⟩

/-- A 1-component, 3-tuple array, for validation test vectors. -/
def arrThree : NamedArray Int := ⟨"D", 1, 3, fun _ _ => 0⟩

/-- A 1-component, 0-tuple array, for the empty-output test vector. -/
def arrEmptyTuples : NamedArray Int := ⟨"E", 1, 0, fun _ _ => 0⟩

/-- The null-array check of `WriteArraysToOutputFile` (lines 422-427): when
`InputDataArrays[ArrayIterator] == NULL` the source prints
`"Array " << ArrayIterator << " is NULL."` to `cerr` and falls through —
the branch contains no `exit`, `return` or `continue`.  The first component
is the diagnostics emitted; the second is whether the conversion proceeds
past the check, which in the source is unconditionally the case. -/
def nullArrayCheck (slotIsNull : Bool) (i : Nat) : List String × Bool :=
  (if slotIsNull then ["Array " ++ toString i ++ " is NULL."] else [], true)

/-- The input file types of `InputFileType` in `vtk2raw.h` (the
`NUMBER_OF_INPUT_FILE_TYPES` sentinel is omitted; it is never returned). -/
inductive InputFileType where
  | VTK
  | VTI
  | VTP
  | VTU
deriving DecidableEq, Repr

/-- The two `exit(1)` paths of `DetermineInputFileType`: "No file extension
found in the Input filename." (lines 213-218) and "No valid input file
extension found." (lines 240-244). -/
inductive ExtensionError where
  | noExtensionFound
  | noValidExtension
deriving DecidableEq, Repr

/-- `InputFilenameString.find_last_of(".")` followed by
`substr(FoundLastDot+1)` (lines 203-218): the characters after the last
dot, or `none` when the filename has no dot. -/
def extAfterLastDot : List Char → Option (List Char)
  | [] => none
  | c :: rest =>
    match extAfterLastDot rest with
    | some e => some e
    | none => if c = '.' then some rest else none

/-- The extension comparison chain of `DetermineInputFileType`
(lines 220-245), transcribed with the source's truthiness slip: the third
and fourth branches test `strcmp(FileExtension,"VTP")` and
`strcmp(FileExtension,"VTU")` as conditions, and `strcmp` is nonzero
exactly when the strings differ, so those branches fire on INEQUALITY. -/
def determineInputFileTypeOfExt (ext : List Char) :
    Except ExtensionError InputFileType :=
  if ext = "vtk".toList then .ok .VTK
  else if ext = "vti".toList then .ok .VTI
  else if ext ≠ "VTP".toList then .ok .VTP
  else if ext ≠ "VTU".toList then .ok .VTU
  else .error .noValidExtension

/-- `DetermineInputFileType` (lines 200-245): extract the extension after
the last dot, failing when there is none, then classify it. -/
def determineInputFileType (filename : List Char) :
    Except ExtensionError InputFileType :=
  match extAfterLastDot filename with
  | some ext => determineInputFileTypeOfExt ext
  | none => .error .noExtensionFound

/-- C `isspace` in the default locale, as skipped by `atoi`. -/
def isSpaceChar (c : Char) : Bool :=
  c.toNat = 32 || c.toNat = 9 || c.toNat = 10 || c.toNat = 11 ||
    c.toNat = 12 || c.toNat = 13

/-- The longest leading run of decimal digits, folded into a number. -/
def leadingDigitsValue : List Char → Nat → Nat
  | [], acc => acc
  | c :: cs, acc =>
    if c.isDigit then leadingDigitsValue cs (acc * 10 + (c.toNat - 48))
    else acc

/-- C `atoi` (line 113): skip leading whitespace, take an optional sign,
then the longest run of decimal digits; a string with no leading digits
converts to 0.  (Overflow is undefined behavior in C and not modelled; the
CLI only compares the result with 0 and 1.) -/
def atoi (cs : List Char) : Int :=
  match cs.dropWhile isSpaceChar with
  | '-' :: rest => - (leadingDigitsValue rest 0 : Int)
  | '+' :: rest => (leadingDigitsValue rest 0 : Int)
  | rest => (leadingDigitsValue rest 0 : Int)

/-- The observable outcome of `main`'s argument handling. -/
inductive CliOutcome where
  | usageThenExit (exitCode : Nat)
  | invalidFlagExit (exitCode : Nat)
  | run (inputFilename outputFilename : String) (binaryOutputFile : Bool)
deriving DecidableEq, Repr

/-- The argument handling of `main` (lines 101-133): with `argc < 3` print
the usage and `exit(0)`; with `argc == 4` parse `argv[3]` with `atoi`,
rejecting values other than 0 and 1 with `exit(1)`; any other argument
count (including more than 4 arguments) proceeds with the flag left at its
default `false`.  `argv` includes the program name, so
`argv.length = argc`. -/
def mainArgs (argv : List String) : CliOutcome :=
  if argv.length < 3 then .usageThenExit 0
  else if argv.length = 4 then
    if atoi ((argv.getD 3 "").toList) ≠ 0
        ∧ atoi ((argv.getD 3 "").toList) ≠ 1 then
      .invalidFlagExit 1
    else
      .run (argv.getD 1 "") (argv.getD 2 "")
        (atoi ((argv.getD 3 "").toList) == 1)
  else .run (argv.getD 1 "") (argv.getD 2 "") false

/-- Decidable equality for `Except`, used to evaluate concrete runs of the
driver and the dispatcher in witnesses. -/
instance {ε σ : Type} [DecidableEq ε] [DecidableEq σ] :
    DecidableEq (Except ε σ)
  | .ok a, .ok b =>
    if h : a = b then isTrue (by rw [h])
    else isFalse (by intro he; cases he; exact h rfl)
  | .ok _, .error _ => isFalse (by intro h; cases h)
  | .error _, .ok _ => isFalse (by intro h; cases h)
  | .error e, .error f =>
    if h : e = f then isTrue (by rw [h])
    else isFalse (by intro he; cases he; exact h rfl)

section Lemmas

variable {α β γ : Type}

theorem sepBy_cons_ne (d x : List γ) {l : List (List γ)} (h : l ≠ []) :
    sepBy d (x :: l) = x ++ d ++ sepBy d l := by
  cases l with
  | nil => exact absurd rfl h
  | cons y ys => rfl

theorem flatten_map_append_sepBy (d : List γ) (xs : List (List γ))
    (y : List γ) :
    (xs.map (fun s => s ++ d)).flatten ++ y = sepBy d (xs ++ [y]) := by
  induction xs with
  | nil => simp [sepBy]
  | cons x xs ih =>
    rw [List.map_cons, List.flatten_cons, List.cons_append,
      sepBy_cons_ne d x (by simp), ← ih]
    simp [List.append_assoc]

theorem loopJoin_eq_sepBy (k : Nat) (f : Nat → List Char) (d : List Char) :
    loopJoin k f d = sepBy d ((List.range k).map f) := by
  cases k with
  | zero => rfl
  | succ j =>
    unfold loopJoin
    rw [List.range_succ, List.map_append, List.map_append,
      List.flatten_append]
    simp only [List.map_cons, List.map_nil, List.flatten_cons,
      List.flatten_nil, List.append_nil]
    have hj : ¬ (j < j + 1 - 1) := by omega
    rw [if_neg hj, List.append_nil]
    have hmap : (List.range j).map (fun i => f i ++ if i < j + 1 - 1 then d else [])
        = ((List.range j).map f).map (fun s => s ++ d) := by
      rw [List.map_map]
      refine List.map_congr_left ?_
      intro i hi
      have hij : i < j + 1 - 1 := by
        have := List.mem_range.mp hi
        omega
      rw [if_pos hij]
      rfl
    rw [hmap, flatten_map_append_sepBy]

theorem map_getD_range (xs : List β) (dflt : β) :
    (List.range xs.length).map (fun i => xs.getD i dflt) = xs := by
  induction xs with
  | nil => rfl
  | cons x xs ih =>
    rw [List.length_cons, List.range_succ_eq_map, List.map_cons,
      List.map_map]
    congr 1

theorem sepBy_append_ne (d : List γ) (g l : List (List γ)) (hg : g ≠ [])
    (hl : l ≠ []) :
    sepBy d (g ++ l) = sepBy d g ++ d ++ sepBy d l := by
  induction g with
  | nil => exact absurd rfl hg
  | cons x g ih =>
    cases g with
    | nil => simp [sepBy_cons_ne d x hl, sepBy]
    | cons y g =>
      rw [List.cons_append, sepBy_cons_ne d x (by simp),
        sepBy_cons_ne d x (l := y :: g) (by simp), ih (by simp)]
      simp [List.append_assoc]

theorem flatten_ne_of_ne (gss : List (List γ)) (h0 : gss ≠ [])
    (h1 : ∀ g ∈ gss, g ≠ []) : gss.flatten ≠ [] := by
  cases gss with
  | nil => exact absurd rfl h0
  | cons g gs =>
    have hg := h1 g (by simp)
    simp only [List.flatten_cons]
    intro he
    exact hg (List.append_eq_nil.mp he).1

theorem sepBy_map_sepBy (d : List γ) (gss : List (List (List γ)))
    (h : ∀ g ∈ gss, g ≠ []) :
    sepBy d (gss.map (sepBy d)) = sepBy d gss.flatten := by
  induction gss with
  | nil => rfl
  | cons g gs ih =>
    cases gs with
    | nil => simp [sepBy]
    | cons g2 gs2 =>
      have hg : g ≠ [] := h g (by simp)
      have hrest : ∀ x ∈ g2 :: gs2, x ≠ [] := fun x hx => h x (by simp [hx])
      rw [List.map_cons, sepBy_cons_ne d _ (by simp), ih hrest]
      conv_rhs => rw [List.flatten_cons]
      rw [sepBy_append_ne d g (g2 :: gs2).flatten hg
        (flatten_ne_of_ne _ (by simp) hrest)]

theorem flatMap_getD_range (xs : List β) (dflt : β) (g : β → List γ) :
    (List.range xs.length).flatMap (fun i => g (xs.getD i dflt))
      = xs.flatMap g := by
  rw [List.flatMap_def, List.flatMap_def]
  have h1 : (List.range xs.length).map (fun i => g (xs.getD i dflt))
      = ((List.range xs.length).map (fun i => xs.getD i dflt)).map g := by
    rw [List.map_map]; rfl
  rw [h1, map_getD_range]

theorem headD_mem {l : List β} (dflt : β) (h : l ≠ []) :
    l.headD dflt ∈ l := by
  cases l with
  | nil => exact absurd rfl h
  | cons x xs => exact List.mem_cons_self x xs

theorem writeComponentsOfArray_eq (fmt : α → List Char) (a : NamedArray α)
    (t : Nat) :
    writeComponentsOfArray fmt a t
      = sepBy delimiter
          ((List.range a.componentCount).map (fun c => fmt (a.data t c))) :=
  loopJoin_eq_sepBy _ _ _

/-- A row written by the ASCII serializer is its fields joined by single
tabs, uniformly across array boundaries, provided every array has at
least one component. -/
theorem writeRowToASCII_eq [Inhabited α] (fmt : α → List Char)
    (arrays : List (NamedArray α)) (t : Nat)
    (h3 : ∀ a ∈ arrays, 1 ≤ a.componentCount) :
    writeRowToASCII fmt arrays t
      = sepBy delimiter (tupleFields fmt arrays t) := by
  unfold writeRowToASCII
  rw [loopJoin_eq_sepBy]
  have h5 : (List.range arrays.length).map
        (fun i => writeComponentsOfArray fmt (arrays.getD i default) t)
      = arrays.map (fun a => writeComponentsOfArray fmt a t) := by
    have h6 : (List.range arrays.length).map
          (fun i => writeComponentsOfArray fmt (arrays.getD i default) t)
        = ((List.range arrays.length).map
            (fun i => arrays.getD i default)).map
              (fun a => writeComponentsOfArray fmt a t) := by
      rw [List.map_map]; rfl
    rw [h6, map_getD_range]
  rw [h5]
  have h7 : arrays.map (fun a => writeComponentsOfArray fmt a t)
      = (arrays.map (fun a => (List.range a.componentCount).map
          (fun c => fmt (a.data t c)))).map (sepBy delimiter) := by
    rw [List.map_map]
    exact List.map_congr_left fun a _ => writeComponentsOfArray_eq fmt a t
  rw [h7, sepBy_map_sepBy]
  · rw [tupleFields, List.flatMap_def]
  · intro g hg
    rcases List.mem_map.mp hg with ⟨a, ha, rfl⟩
    have h8 := h3 a ha
    simp only [ne_eq, List.map_eq_nil_iff, List.range_eq_nil]
    omega

theorem tupleFields_length (fmt : α → List Char)
    (arrays : List (NamedArray α)) (t : Nat) :
    (tupleFields fmt arrays t).length
      = (arrays.map (fun a => a.componentCount)).sum := by
  rw [tupleFields, List.length_flatMap]
  congr 1
  refine List.map_congr_left fun a _ => ?_
  simp [List.length_map, List.length_range]

theorem tupleValues_length (arrays : List (NamedArray α)) (t : Nat) :
    (tupleValues arrays t).length
      = (arrays.map (fun a => a.componentCount)).sum := by
  rw [tupleValues, List.length_flatMap]
  congr 1
  refine List.map_congr_left fun a _ => ?_
  simp [List.length_map, List.length_range]

/-- The binary serializer's value sequence is row-major over the text
serializer's field order. -/
theorem writeArraysToBinaryFile_eq [Inhabited α]
    (arrays : List (NamedArray α)) :
    writeArraysToBinaryFile arrays
      = (List.range (arrays.headD default).tupleCount).flatMap
          (fun t => tupleValues arrays t) := by
  unfold writeArraysToBinaryFile
  have h1 : ∀ t, (List.range arrays.length).flatMap
        (fun i => (List.range (arrays.getD i default).componentCount).map
          (fun c => (arrays.getD i default).data t c))
      = tupleValues arrays t := fun t =>
    flatMap_getD_range arrays default
      (fun a => (List.range a.componentCount).map (fun c => a.data t c))
  simp only [h1]

theorem tupleFields_eq_map (fmt : α → List Char)
    (arrays : List (NamedArray α)) (t : Nat) :
    tupleFields fmt arrays t = (tupleValues arrays t).map fmt := by
  rw [tupleFields, tupleValues, List.map_flatMap]
  simp only [List.map_map]
  rfl

end Lemmas

/-- C1: for every valid ArraySet whose arrays all share tupleCount `m` and
whose component counts sum to `n`, the text serializer's output is the `m`
row strings joined by single newlines (hence `m-1` newline separators and
no trailing newline), where each row string is its `n` fields joined by a
single horizontal tab between every two adjacent fields, uniformly across
array boundaries. -/
theorem writeText_line_field_structure [Inhabited α] (fmt : α → List Char)
    (arrays : List (NamedArray α)) (m n t : Nat)
    (h1 : arrays ≠ [])
    (h2 : ∀ a ∈ arrays, a.tupleCount = m)
    (h3 : ∀ a ∈ arrays, 1 ≤ a.componentCount)
    (h4 : (arrays.map (fun a => a.componentCount)).sum = n) :
    writeArraysToASCIIFile fmt arrays
      = sepBy newlineString ((List.range m).map
          (fun u => sepBy delimiter (tupleFields fmt arrays u)))
    ∧ (tupleFields fmt arrays t).length = n := by
  constructor
  · unfold writeArraysToASCIIFile
    rw [h2 _ (headD_mem default h1), loopJoin_eq_sepBy]
    congr 1
    exact List.map_congr_left fun u _ => writeRowToASCII_eq fmt arrays u h3
  · rw [tupleFields_length, h4]

/-- Witness for C1 at the spec's concrete two-array input (m = 2, n = 3). -/
theorem writeText_line_field_structure_witness :
    ([arrA, arrB] ≠ ([] : List (NamedArray Int)))
    ∧ (∀ a ∈ [arrA, arrB], a.tupleCount = 2)
    ∧ (∀ a ∈ [arrA, arrB], 1 ≤ a.componentCount)
    ∧ (([arrA, arrB].map (fun a => a.componentCount)).sum = 3)
    ∧ (writeArraysToASCIIFile intFmt [arrA, arrB]
        = sepBy newlineString ((List.range 2).map
            (fun u => sepBy delimiter (tupleFields intFmt [arrA, arrB] u)))
      ∧ (tupleFields intFmt [arrA, arrB] 0).length = 3) :=
  ⟨by simp, by decide, by decide, by decide,
    writeText_line_field_structure intFmt [arrA, arrB] 2 3 0 (by simp)
      (by decide) (by decide) (by decide)⟩

/-- C2: for every valid ArraySet whose arrays all share tupleCount `m` and
whose component counts sum to `n`, the binary serializer emits exactly
`m*n` values (hence `m*n*8` bytes once each value is encoded as its 8-byte
native-endian double representation), row-major, in exactly the text
serializer's field order: row-major, array order, then component order
within each array. -/
theorem writeBinary_order_and_length [Inhabited α] (fmt : α → List Char)
    (enc : α → List UInt8) (arrays : List (NamedArray α)) (m n t : Nat)
    (h1 : arrays ≠ [])
    (h2 : ∀ a ∈ arrays, a.tupleCount = m)
    (h4 : (arrays.map (fun a => a.componentCount)).sum = n)
    (henc : ∀ v, (enc v).length = 8) :
    writeArraysToBinaryFile arrays
      = (List.range m).flatMap (fun u => tupleValues arrays u)
    ∧ (writeArraysToBinaryFile arrays).length = m * n
    ∧ ((writeArraysToBinaryFile arrays).flatMap enc).length = m * n * 8
    ∧ tupleFields fmt arrays t = (tupleValues arrays t).map fmt := by
  have hb : writeArraysToBinaryFile arrays
      = (List.range m).flatMap (fun u => tupleValues arrays u) := by
    rw [writeArraysToBinaryFile_eq, h2 _ (headD_mem default h1)]
  have hlen : (writeArraysToBinaryFile arrays).length = m * n := by
    rw [hb, List.length_flatMap]
    simp only [Function.comp_def]
    have h5 : (List.range m).map (fun u => (tupleValues arrays u).length)
        = List.replicate m n := by
      have h6 : (List.range m).map (fun u => (tupleValues arrays u).length)
          = (List.range m).map (fun _ => n) :=
        List.map_congr_left fun u _ => by rw [tupleValues_length, h4]
      rw [h6, List.map_const', List.length_range]
    rw [h5, List.sum_replicate, smul_eq_mul]
  refine ⟨hb, hlen, ?_, tupleFields_eq_map fmt arrays t⟩
  rw [List.length_flatMap]
  simp only [Function.comp_def]
  have h7 : (writeArraysToBinaryFile arrays).map (fun v => (enc v).length)
      = List.replicate (m * n) 8 := by
    have h8 : (writeArraysToBinaryFile arrays).map (fun v => (enc v).length)
        = (writeArraysToBinaryFile arrays).map (fun _ => 8) :=
      List.map_congr_left fun v _ => henc v
    rw [h8, List.map_const', hlen]
  rw [h7, List.sum_replicate, smul_eq_mul]

/-- Witness for C2 at the spec's concrete two-array input (m = 2, n = 3),
with a concrete 8-byte-per-value encoder. -/
theorem writeBinary_order_and_length_witness :
    ([arrA, arrB] ≠ ([] : List (NamedArray Int)))
    ∧ (∀ a ∈ [arrA, arrB], a.tupleCount = 2)
    ∧ (([arrA, arrB].map (fun a => a.componentCount)).sum = 3)
    ∧ (writeArraysToBinaryFile [arrA, arrB]
        = (List.range 2).flatMap (fun u => tupleValues [arrA, arrB] u)
      ∧ (writeArraysToBinaryFile [arrA, arrB]).length = 2 * 3
      ∧ ((writeArraysToBinaryFile [arrA, arrB]).flatMap
          (fun _ : Int => List.replicate 8 (0 : UInt8))).length = 2 * 3 * 8
      ∧ tupleFields intFmt [arrA, arrB] 1
          = (tupleValues [arrA, arrB] 1).map intFmt) :=
  ⟨by simp, by decide, by decide,
    writeBinary_order_and_length intFmt
      (fun _ : Int => List.replicate 8 (0 : UInt8)) [arrA, arrB] 2 3 1
      (by simp) (by decide) (by decide) (fun _ => by simp)⟩

/-- C3: on the concrete input A = [[1,2],[3,4]] (2 components, 2 tuples)
and B = [[5],[6]] (1 component, 2 tuples), the text output is exactly
the byte string "1\t2\t5\n3\t4\t6" (no trailing newline) and the binary
output is exactly the doubles 1,2,5,3,4,6 in sequence, 6 values of 8
bytes each, 48 bytes. -/
theorem concrete_scenario_output :
    writeArraysToASCIIFile intFmt [arrA, arrB] = "1\t2\t5\n3\t4\t6".toList
    ∧ writeArraysToBinaryFile [arrA, arrB] = [1, 2, 5, 3, 4, 6]
    ∧ (writeArraysToBinaryFile [arrA, arrB]).length * 8 = 48 :=
  ⟨by decide, by decide, by decide⟩

/-- C4: the driver fails with the empty-input error on zero arrays, fails
with the inconsistent-tuple-count error exactly when some array's
tupleCount differs from array index 0's tupleCount (the comparison is
against the first array), and in both failure cases returns an error
carrying no output. -/
theorem validation_failures [Inhabited α] (fmt : α → List Char)
    (arrays : List (NamedArray α)) (mode : Bool) :
    (arrays = [] →
      writeArraysToOutputFile fmt arrays mode = .error .emptyInput)
    ∧ (arrays ≠ [] →
        (writeArraysToOutputFile fmt arrays mode
            = .error .inconsistentTupleCount
          ↔ ∃ a ∈ arrays,
              a.tupleCount ≠ (arrays.headD default).tupleCount))
    ∧ ((arrays = [] ∨ ∃ a ∈ arrays,
          a.tupleCount ≠ (arrays.headD default).tupleCount) →
        ∀ o, writeArraysToOutputFile fmt arrays mode ≠ .ok o) := by
  cases arrays with
  | nil =>
    refine ⟨fun _ => rfl, fun h => absurd rfl h, fun _ o => ?_⟩
    intro he
    exact Except.noConfusion he
  | cons a as =>
    have hne : ¬ ((a :: as).length < 1) := by simp
    have hiff : writeArraysToOutputFile fmt (a :: as) mode
        = .error .inconsistentTupleCount
        ↔ ∃ b ∈ a :: as,
            b.tupleCount ≠ ((a :: as).headD default).tupleCount := by
      unfold writeArraysToOutputFile
      rw [if_neg hne]
      by_cases hany : (a :: as).tail.any
          (fun b => b.tupleCount ≠ ((a :: as).headD default).tupleCount)
      · rw [if_pos hany]
        refine ⟨fun _ => ?_, fun _ => rfl⟩
        rcases List.any_eq_true.mp hany with ⟨b, hb, hbne⟩
        exact ⟨b, List.mem_of_mem_tail hb, of_decide_eq_true hbne⟩
      · rw [if_neg hany]
        constructor
        · intro he
          exfalso
          cases mode <;> simp_all
        · intro ⟨b, hb, hbne⟩
          exfalso
          rcases List.mem_cons.mp hb with rfl | hb2
          · exact hbne rfl
          · exact hany (List.any_eq_true.mpr
              ⟨b, hb2, decide_eq_true hbne⟩)
    refine ⟨fun h => List.noConfusion h, fun _ => hiff, fun hor o => ?_⟩
    rcases hor with h | h
    · exact List.noConfusion h
    · rw [hiff.mpr h]
      intro he
      exact Except.noConfusion he

/-- Witness for C4: the empty set fails with the empty-input error; tuple
counts {5,3} fail with the inconsistent-tuple-count error; neither run
returns output. -/
theorem validation_failures_witness :
    writeArraysToOutputFile intFmt ([] : List (NamedArray Int)) false
        = .error .emptyInput
    ∧ writeArraysToOutputFile intFmt [arrFive, arrThree] false
        = .error .inconsistentTupleCount
    ∧ writeArraysToOutputFile intFmt [arrFive, arrThree] false
        ≠ .ok (.text "".toList) :=
  ⟨(validation_failures intFmt [] false).1 rfl,
    ((validation_failures intFmt [arrFive, arrThree] false).2.1
      (by simp)).mpr ⟨arrThree, by simp, by decide⟩,
    (validation_failures intFmt [arrFive, arrThree] false).2.2
      (Or.inr ⟨arrThree, by simp, by decide⟩) (.text "".toList)⟩

/-- C6: the conversion is deterministic — the output is a pure function of
the ArraySet and the output mode, so two runs on equal inputs with equal
modes produce identical output. -/
theorem conversion_deterministic [Inhabited α] (fmt : α → List Char)
    (arrays1 arrays2 : List (NamedArray α)) (mode1 mode2 : Bool)
    (ha : arrays1 = arrays2) (hm : mode1 = mode2) :
    writeArraysToOutputFile fmt arrays1 mode1
      = writeArraysToOutputFile fmt arrays2 mode2 := by
  rw [ha, hm]

/-- Witness for C6 at the concrete two-array input in binary mode. -/
theorem conversion_deterministic_witness :
    writeArraysToOutputFile intFmt [arrA, arrB] true
      = writeArraysToOutputFile intFmt [arrA, arrB] true :=
  conversion_deterministic intFmt [arrA, arrB] [arrA, arrB] true true
    rfl rfl

/-- C10: for every ArraySet that passes validation and whose first array
has tupleCount 0, both serializers write zero bytes: the text output is
empty and the binary value sequence is empty, in their respective modes of
the driver as well. -/
theorem zero_tuples_empty_output [Inhabited α] (fmt : α → List Char)
    (arrays : List (NamedArray α))
    (h0 : ∀ a ∈ arrays, a.tupleCount = (arrays.headD default).tupleCount)
    (h1 : arrays ≠ [])
    (h2 : (arrays.headD default).tupleCount = 0) :
    writeArraysToASCIIFile fmt arrays = []
    ∧ writeArraysToBinaryFile arrays = []
    ∧ writeArraysToOutputFile fmt arrays false = .ok (.text [])
    ∧ writeArraysToOutputFile fmt arrays true = .ok (.binary []) := by
  have ha : writeArraysToASCIIFile fmt arrays = [] := by
    unfold writeArraysToASCIIFile
    rw [h2]
    rfl
  have hbin : writeArraysToBinaryFile arrays = [] := by
    unfold writeArraysToBinaryFile
    rw [h2]
    rfl
  have hval : arrays.tail.any
      (fun b => b.tupleCount ≠ (arrays.headD default).tupleCount)
        = false := by
    rw [List.any_eq_false]
    intro b hb
    have hbt := h0 b (List.mem_of_mem_tail hb)
    simp [hbt]
  cases arrays with
  | nil => exact absurd rfl h1
  | cons a as =>
    have hne : ¬ ((a :: as).length < 1) := by simp
    refine ⟨ha, hbin, ?_, ?_⟩
    · unfold writeArraysToOutputFile
      rw [if_neg hne, hval, if_neg (by simp), if_pos rfl, ha]
    · unfold writeArraysToOutputFile
      rw [if_neg hne, hval, if_neg (by simp), if_neg (by simp), hbin]

/-- Witness for C10 at a single 1-component array with zero tuples. -/
theorem zero_tuples_empty_output_witness :
    (∀ a ∈ [arrEmptyTuples],
      a.tupleCount = ([arrEmptyTuples].headD default).tupleCount)
    ∧ ([arrEmptyTuples] ≠ ([] : List (NamedArray Int)))
    ∧ (([arrEmptyTuples].headD default).tupleCount = 0)
    ∧ (writeArraysToASCIIFile intFmt [arrEmptyTuples] = []
      ∧ writeArraysToBinaryFile [arrEmptyTuples] = []
      ∧ writeArraysToOutputFile intFmt [arrEmptyTuples] false
          = .ok (.text [])
      ∧ writeArraysToOutputFile intFmt [arrEmptyTuples] true
          = .ok (.binary [])) :=
  ⟨by decide, by simp, by decide,
    zero_tuples_empty_output intFmt [arrEmptyTuples] (by decide) (by simp)
      (by decide)⟩

/-- C7 counterexample: at the concrete input of a NULL array slot at index
0, the reference's null-array check proceeds with the conversion (the
check's continue flag is `true`, never `false`), so the claim that the
conversion hard-fails with a NullArrayError on a null slot is false of the
code — lines 422-427 only print a warning. -/
theorem nullArrayCheck_counterexample :
    nullArrayCheck true 0 = (["Array 0 is NULL."], true)
    ∧ ¬ (nullArrayCheck true 0).2 = false :=
  ⟨rfl, by decide⟩

/-- C7 amended: when an array slot is NULL, the check prints the warning
"Array i is NULL." naming the slot index and the conversion proceeds past
the check (the branch has no exit or return); no NullArrayError failure
occurs there.  The subsequent component access on the NULL array is
undefined behavior, not a validation failure. -/
theorem nullArrayCheck_warns_and_continues (i : Nat) :
    nullArrayCheck true i = (["Array " ++ toString i ++ " is NULL."], true)
    ∧ (nullArrayCheck true i).2 ≠ false :=
  ⟨rfl, by simp [nullArrayCheck]⟩

/-- C8 counterexample: at the concrete invocation with a missing argument
the program prints the usage and exits with status 0, not a non-zero
status; and at a concrete invocation with an extra (fifth) argument it
does not fail at all but proceeds in text mode.  Both contradict the
claim. -/
theorem mainArgs_counterexample :
    mainArgs ["vtk2raw", "input.vtk"] = .usageThenExit 0
    ∧ mainArgs ["vtk2raw", "in.vtk", "out.raw", "0", "extra"]
        = .run "in.vtk" "out.raw" false :=
  ⟨rfl, rfl⟩

/-- C8 amended: the binaryFlag argument, parsed with `atoi`, is accepted
exactly when it parses to 0 or 1 and defaults to 0 (text mode) when
absent; fewer than two non-program arguments print the usage and exit
with status 0 (not non-zero); an `atoi`-parsed flag value outside {0,1}
exits with status 1; and extra arguments beyond the third are not
rejected — the program proceeds in text mode ignoring them. -/
theorem mainArgs_spec (argv : List String) :
    (argv.length < 3 → mainArgs argv = .usageThenExit 0)
    ∧ (argv.length = 4 →
        ((atoi ((argv.getD 3 "").toList) ≠ 0
            ∧ atoi ((argv.getD 3 "").toList) ≠ 1) →
          mainArgs argv = .invalidFlagExit 1)
        ∧ (atoi ((argv.getD 3 "").toList) = 0 →
          mainArgs argv = .run (argv.getD 1 "") (argv.getD 2 "") false)
        ∧ (atoi ((argv.getD 3 "").toList) = 1 →
          mainArgs argv = .run (argv.getD 1 "") (argv.getD 2 "") true))
    ∧ (3 ≤ argv.length → argv.length ≠ 4 →
        mainArgs argv = .run (argv.getD 1 "") (argv.getD 2 "") false) := by
  unfold mainArgs
  refine ⟨?_, ?_, ?_⟩
  · intro h
    rw [if_pos h]
  · intro h4
    have hn : ¬ (argv.length < 3) := by omega
    refine ⟨?_, ?_, ?_⟩
    · intro hv
      rw [if_neg hn, if_pos h4, if_pos hv]
    · intro hv
      rw [if_neg hn, if_pos h4, if_neg (fun hc => hc.1 hv), hv]
      rfl
    · intro hv
      rw [if_neg hn, if_pos h4, if_neg (fun hc => hc.2 hv), hv]
      rfl
  · intro h3 hne
    rw [if_neg (by omega), if_neg hne]

/-- Witness for C8's amended claim: a missing-argument run, an invalid
flag value, a flag value of 1, and an extra-argument run. -/
theorem mainArgs_spec_witness :
    mainArgs ["vtk2raw"] = .usageThenExit 0
    ∧ mainArgs ["vtk2raw", "a.vtk", "b.raw", "2"] = .invalidFlagExit 1
    ∧ mainArgs ["vtk2raw", "a.vtk", "b.raw", "1"]
        = .run "a.vtk" "b.raw" true
    ∧ mainArgs ["vtk2raw", "a.vtk", "b.raw", "x", "y"]
        = .run "a.vtk" "b.raw" false :=
  ⟨(mainArgs_spec ["vtk2raw"]).1 (by decide),
    ((mainArgs_spec ["vtk2raw", "a.vtk", "b.raw", "2"]).2.1 rfl).1
      (by decide),
    ((mainArgs_spec ["vtk2raw", "a.vtk", "b.raw", "1"]).2.1 rfl).2.2
      (by decide),
    (mainArgs_spec ["vtk2raw", "a.vtk", "b.raw", "x", "y"]).2.2
      (by decide) (by decide)⟩

/-- The final "No valid input file extension found" branch of the
comparison chain is unreachable: it would require the extension to equal
both "VTP" and "VTU". -/
theorem determineInputFileTypeOfExt_isOk (ext : List Char) :
    (determineInputFileTypeOfExt ext).isOk = true := by
  unfold determineInputFileTypeOfExt
  split_ifs with h1 h2 h3 h4
  · rfl
  · rfl
  · rfl
  · rfl
  · exfalso
    push_neg at h3 h4
    rw [h3] at h4
    exact absurd h4 (by decide)

/-- A filename containing a dot always yields an extension. -/
theorem extAfterLastDot_isSome {filename : List Char}
    (h : '.' ∈ filename) : (extAfterLastDot filename).isSome = true := by
  induction filename with
  | nil => cases h
  | cons c rest ih =>
    cases hrec : extAfterLastDot rest with
    | some e => simp [extAfterLastDot, hrec]
    | none =>
      rcases List.mem_cons.mp h with rfl | hmem
      · simp [extAfterLastDot, hrec]
      · have h2 := ih hmem
        rw [hrec] at h2
        simp at h2

/-- C9: in the input-type dispatch, for every extension that is neither
"vtk" nor "vti", the extension "VTP" is classified as VTU and every other
extension (including "VTU", "vtp", "vtu" and arbitrary strings) as VTP —
the `strcmp` truthiness slip — so the final "No valid input file
extension found" error branch is unreachable for every filename that
contains a dot. -/
theorem dispatch_truthiness (ext filename : List Char)
    (h1 : ext ≠ "vtk".toList) (h2 : ext ≠ "vti".toList)
    (hdot : '.' ∈ filename) :
    (ext = "VTP".toList → determineInputFileTypeOfExt ext = .ok .VTU)
    ∧ (ext ≠ "VTP".toList → determineInputFileTypeOfExt ext = .ok .VTP)
    ∧ determineInputFileType filename ≠ .error .noValidExtension
    ∧ (determineInputFileType filename).isOk = true := by
  have hsome := extAfterLastDot_isSome hdot
  obtain ⟨e, he⟩ := Option.isSome_iff_exists.mp hsome
  have hfile : determineInputFileType filename
      = determineInputFileTypeOfExt e := by
    unfold determineInputFileType
    rw [he]
  refine ⟨?_, ?_, ?_, ?_⟩
  · intro hvtp
    subst hvtp
    decide
  · intro hne
    unfold determineInputFileTypeOfExt
    rw [if_neg h1, if_neg h2, if_pos hne]
  · rw [hfile]
    intro hcon
    have hok := determineInputFileTypeOfExt_isOk e
    rw [hcon] at hok
    simp [Except.isOk, Except.toBool] at hok
  · rw [hfile]
    exact determineInputFileTypeOfExt_isOk e

/-- Witness for C9 at the extension "txt" and the filename "file.txt". -/
theorem dispatch_truthiness_witness :
    ("txt".toList ≠ "vtk".toList)
    ∧ ("txt".toList ≠ "vti".toList)
    ∧ ('.' ∈ "file.txt".toList)
    ∧ (("txt".toList = "VTP".toList →
          determineInputFileTypeOfExt "txt".toList = .ok .VTU)
      ∧ ("txt".toList ≠ "VTP".toList →
          determineInputFileTypeOfExt "txt".toList = .ok .VTP)
      ∧ determineInputFileType "file.txt".toList
          ≠ .error .noValidExtension
      ∧ (determineInputFileType "file.txt".toList).isOk = true) :=
  ⟨by decide, by decide, by decide,
    dispatch_truthiness "txt".toList "file.txt".toList (by decide)
      (by decide) (by decide)⟩

end Vtk2Raw
